import Mathlib

/-!
Verification model of the `vu` terrain surface (src/surface.go).

The Go code converts a rectangular height field (`[][]SurfacePoint`) into
mesh buffers: vertex positions, per-vertex normals, packed texture
coordinates and 16-bit triangle indices.

Modelling conventions:
* `float32` values (heights, scale, texture coordinates) are modelled as
  exact rationals `ℚ`; every concrete value appearing in the claims
  (small integers, halves, the 0.001 seam border) is exactly
  representable in binary floating point, so the comparisons the code
  performs (`== 0`, `== textureRatio`) coincide with the rational ones on
  those inputs.
* Go `int` is `ℤ` (grid sizes are `ℕ`: the Go code panics on a negative
  `make` size, so negative sizes never yield a usable surface).  Go's `%`
  on `int` is truncated division remainder, i.e. `Int.tmod`.
* The `uint16` vertex counter is a `ℕ` kept reduced modulo 65536; every
  stored index carries an explicit `% 65536`.
* Go slices with spare capacity (the `pts` grid that `Resize` reslices)
  are modelled as a backing store `back` plus current lengths `w`, `h`;
  the live grid `Pts` is the `w × h` prefix view of `back`.
* A Go runtime panic (index out of range, integer division by zero,
  reslice beyond capacity) is modelled as `none` of an `Option` result.
* The Go code stores unit-length normals: it divides by a `float32`
  square root.  The scratch and buffers here hold the unnormalized
  vectors (exact rationals); `normalize3` is the (real-valued)
  normalization the Go code applies pointwise before storing.
-/

/-- One grid sample: height, texture atlas index, blend weight
(Go struct `SurfacePoint`). -/
structure SurfacePoint where
  height : ℚ
  tindex : ℤ
  blend : ℚ
deriving DecidableEq, Repr

/-- Go's zero value for `SurfacePoint`. -/
instance : Inhabited SurfacePoint := ⟨⟨0, 0, 0⟩⟩

/-- The temporary 3-vector used for normal generation (Go struct `xyz`). -/
structure Xyz where
  x : ℚ
  y : ℚ
  z : ℚ
deriving DecidableEq, Repr

/-- The mesh sink (`Model` in the Go code): the four buffers a rebuild
delivers via `InitMesh`/`SetMeshData`/`SetFaces`.  `vb` positions
(3 floats per vertex), `nb` normals (one unnormalized vector per vertex;
the Go code stores its normalization), `tb` texture attributes
(u, v, textureIndex, blend per vertex), `fb` 16-bit triangle indices. -/
structure Model where
  vb : List ℚ
  nb : List Xyz
  tb : List ℚ
  fb : List ℕ
deriving DecidableEq, Repr

/-- The surface state (Go struct `surface`).  `back`/`w`/`h` model the Go
slice-of-slices `pts` together with its backing capacity: `back` is the
full allocation made at construction, `w`/`h` are the current slice
lengths (`len(s.pts)`, `len(s.pts[0])`).  `vb`/`nb`/`tb`/`fb`/`nms` are
the reusable scratch buffers. -/
structure Surface where
  tRat : ℚ
  scale : ℚ
  spread : ℤ
  back : List (List SurfacePoint)
  w : ℕ
  h : ℕ
  vb : List ℚ
  nb : List Xyz
  tb : List ℚ
  fb : List ℕ
  nms : List (List Xyz)
deriving DecidableEq, Repr

/-- Read one grid sample, Go `s.pts[x][y]` (in-range accesses only are
ever performed by the code paths modelled here). -/
def pAt (g : List (List SurfacePoint)) (x y : ℕ) : SurfacePoint :=
  (g.getD x []).getD y default

/-- Height of the sample at `(x, y)`. -/
def hAt (g : List (List SurfacePoint)) (x y : ℕ) : ℚ :=
  (pAt g x y).height

/-- The seam-correction epsilon, Go `border := float32(0.001)`. -/
def border : ℚ := 1 / 1000

/-- Averaged x-slope at a grid point, surface.go lines 110-121:
sample at `min(x+1,sx-1)` minus sample at `max(x-1,0)`, doubled at the
two x-boundaries. -/
def xslopeAt (g : List (List SurfacePoint)) (sx : ℕ) (x y : ℕ) : ℚ :=
  let xmax := if x < sx - 1 then x + 1 else x
  let xmin := if 0 < x then x - 1 else x
  let sl := hAt g xmax y - hAt g xmin y
  if x = 0 ∨ x = sx - 1 then sl * 2 else sl

/-- Averaged y-slope at a grid point, surface.go lines 123-134. -/
def yslopeAt (g : List (List SurfacePoint)) (sy : ℕ) (x y : ℕ) : ℚ :=
  let ymax := if y < sy - 1 then y + 1 else y
  let ymin := if 0 < y then y - 1 else y
  let sl := hAt g x ymax - hAt g x ymin
  if y = 0 ∨ y = sy - 1 then sl * 2 else sl

/-- The pre-normalization normal vector at a grid point, surface.go
line 137: `(-xslope*yScale, 2*xzScale, yslope*yScale)` with
`yScale = s.scale` and `xzScale = 1`. -/
def rawNormal (g : List (List SurfacePoint)) (sx sy : ℕ) (scale : ℚ) (x y : ℕ) : Xyz :=
  ⟨-(xslopeAt g sx x y) * scale, 2 * 1, yslopeAt g sy x y * scale⟩

/-- Normalization to unit length, surface.go lines 138-139: the Go code
stores `rawNormal` divided by its Euclidean length. -/
noncomputable def normalize3 (v : Xyz) : ℝ × ℝ × ℝ :=
  let nx : ℝ := (v.x : ℝ)
  let ny : ℝ := (v.y : ℝ)
  let nz : ℝ := (v.z : ℝ)
  let len := Real.sqrt (nx * nx + ny * ny + nz * nz)
  (nx / len, ny / len, nz / len)

/-- The 12 position floats one quad appends to the vertex buffer,
surface.go lines 155-162: corners `(x,y)`, `(x+1,y)`, `(x,y+1)`,
`(x+1,y+1)` with height scaled by `hscale = s.scale`. -/
def quadVB (g : List (List SurfacePoint)) (hscale : ℚ) (x y : ℕ) : List ℚ :=
  [(x : ℚ), (y : ℚ), hAt g x y * hscale,
   (x : ℚ) + 1, (y : ℚ), hAt g (x + 1) y * hscale,
   (x : ℚ), (y : ℚ) + 1, hAt g x (y + 1) * hscale,
   (x : ℚ) + 1, (y : ℚ) + 1, hAt g (x + 1) (y + 1) * hscale]

/-- The 16 texture-attribute floats one quad appends, surface.go lines
164-194: the four uv corners of the selected atlas sub-tile, each
followed by the quad's textureIndex and blend (taken from the sample at
the quad's `(x,y)` origin corner), with the seam correction applied to
the four ifs exactly as in the source.  Go `%` on `int` is `Int.tmod`. -/
def quadTB (g : List (List SurfacePoint)) (spread : ℤ) (trat : ℚ) (xoff yoff : ℤ)
    (x y : ℕ) : List ℚ :=
  let width := trat / ((spread : ℤ) : ℚ)
  let basex := ((Int.tmod ((x : ℤ) + xoff) spread : ℤ) : ℚ) / ((spread : ℤ) : ℚ)
  let basey := 1 - ((Int.tmod ((y : ℤ) + yoff) spread : ℤ) : ℚ) / ((spread : ℤ) : ℚ)
      - 1 / ((spread : ℤ) : ℚ)
  let uv0 := basex * trat
  let uv1 := basey * trat + width
  let uv2 := basex * trat + width
  let uv3 := basey * trat + width
  let uv4 := basex * trat
  let uv5 := basey * trat
  let uv6 := basex * trat + width
  let uv7 := basey * trat
  let p04 := if uv0 = 0 then (uv0 + border, uv4 + border) else (uv0, uv4)
  let p26 := if uv2 = trat then (uv2 - border, uv6 - border) else (uv2, uv6)
  let p57 := if uv5 = 0 then (uv5 + border, uv7 + border) else (uv5, uv7)
  let p13 := if uv1 = trat then (uv1 - border, uv3 - border) else (uv1, uv3)
  let tindex : ℚ := (((pAt g x y).tindex : ℤ) : ℚ)
  let blend := (pAt g x y).blend
  [p04.1, p13.1, tindex, blend,
   p26.1, p13.2, tindex, blend,
   p04.2, p57.1, tindex, blend,
   p26.2, p57.2, tindex, blend]

/-- The 4 normal vectors one quad appends, surface.go lines 201-204
(the Go code reads them back from the `nms` scratch, where the same
values were just computed). -/
def quadNB (g : List (List SurfacePoint)) (sx sy : ℕ) (scale : ℚ) (x y : ℕ) : List Xyz :=
  [rawNormal g sx sy scale x y, rawNormal g sx sy scale (x + 1) y,
   rawNormal g sx sy scale x (y + 1), rawNormal g sx sy scale (x + 1) (y + 1)]

/-- The 6 triangle indices one quad appends, surface.go line 197:
`vc, vc+1, vc+2, vc+1, vc+3, vc+2` in `uint16` arithmetic.  The running
counter is kept reduced modulo 65536, so the leading `vc % 65536` equals
the stored Go value. -/
def quadFB (vc : ℕ) : List ℕ :=
  [vc % 65536, (vc + 1) % 65536, (vc + 2) % 65536,
   (vc + 1) % 65536, (vc + 3) % 65536, (vc + 2) % 65536]

/-- Iteration order of the quad loops, surface.go lines 151-152:
`x` in `[0, sx-1)` outer, `y` in `[0, sy-1)` inner. -/
def quadList (sx sy : ℕ) : List (ℕ × ℕ) :=
  (List.range (sx - 1)).flatMap (fun x => (List.range (sy - 1)).map (fun y => (x, y)))

/-- One iteration of the quad loop: append the quad's chunk to each of
the four buffers and advance the `uint16` vertex counter by 4. -/
def buildStep (g : List (List SurfacePoint)) (sx sy : ℕ) (spread : ℤ) (trat scale : ℚ)
    (xoff yoff : ℤ) (acc : Model × ℕ) (q : ℕ × ℕ) : Model × ℕ :=
  (⟨acc.1.vb ++ quadVB g scale q.1 q.2,
    acc.1.nb ++ quadNB g sx sy scale q.1 q.2,
    acc.1.tb ++ quadTB g spread trat xoff yoff q.1 q.2,
    acc.1.fb ++ quadFB acc.2⟩,
   (acc.2 + 4) % 65536)

/-- The four buffers produced by one full run of the quad loops,
starting from truncated-to-empty scratch and counter 0. -/
def buildOut (g : List (List SurfacePoint)) (spread : ℤ) (trat scale : ℚ)
    (xoff yoff : ℤ) : Model :=
  ((quadList g.length (g.headD []).length).foldl
    (buildStep g g.length (g.headD []).length spread trat scale xoff yoff)
    (⟨[], [], [], []⟩, 0)).1

/-- The normal scratch contents after the normal loop, surface.go lines
107-141: one vector per grid point (the Go code stores the normalized
vector; here the unnormalized one, with `normalize3` the reading). -/
def normsOut (g : List (List SurfacePoint)) (scale : ℚ) : List (List Xyz) :=
  (List.range g.length).map (fun x =>
    (List.range (g.headD []).length).map (fun y =>
      rawNormal g g.length (g.headD []).length scale x y))

/-- Construction, surface.go `newSurface` (lines 62-82): stores the
parameters verbatim — there is no validation of any of them — and
allocates a zeroed `sx × sy` grid plus the normal scratch.  A negative
Go size would panic in `make`; `ℕ` sizes cover the non-panicking calls. -/
def newSurface (sx sy : ℕ) (spread : ℤ) (textureRat scale : ℚ) : Surface :=
  { tRat := textureRat
    scale := scale
    spread := spread
    back := List.replicate sx (List.replicate sy default)
    w := sx
    h := sy
    vb := []
    nb := []
    tb := []
    fb := []
    nms := List.replicate sx (List.replicate sy ⟨0, 0, 0⟩) }

/-- The live grid view, Go `Pts()`: the current `w × h` window of the
backing store. -/
def Surface.Pts (s : Surface) : List (List SurfacePoint) :=
  (s.back.take s.w).map (fun r => r.take s.h)

/-- Resize, surface.go lines 86-91: `s.pts = s.pts[:w]` then each row
`s.pts[x] = s.pts[x][:h]`.  Reslicing beyond the backing capacity is a
Go panic, modelled as `none`; within capacity the reslice succeeds even
when it grows the view back over previously hidden entries. -/
def Surface.Resize (s : Surface) (w h : ℕ) : Option Surface :=
  if w ≤ s.back.length ∧ ∀ r ∈ s.back.take w, h ≤ r.length then
    some { s with w := w, h := h }
  else none

/-- Update, surface.go lines 95-211: recompute the normal scratch, run
the quad loops into the truncated scratch buffers, and deliver the four
buffers to the mesh sink (replacing whatever `m` previously held — the
returned `Model` is built solely from this rebuild's buffers).  The two
Go panics on this path are modelled as `none`: `len(s.pts[0])` with an
empty grid, and the integer `% spread` with `spread = 0`, which is only
reached when at least one quad exists. -/
def Surface.Update (s : Surface) (m : Model) (xoff yoff : ℤ) : Option (Surface × Model) :=
  if s.Pts.length = 0 then none
  else if s.spread = 0 ∧ 2 ≤ s.Pts.length ∧ 2 ≤ (s.Pts.headD []).length then none
  else
    some ({ s with
            nms := normsOut s.Pts s.scale
            vb := (buildOut s.Pts s.spread s.tRat s.scale xoff yoff).vb
            nb := (buildOut s.Pts s.spread s.tRat s.scale xoff yoff).nb
            tb := (buildOut s.Pts s.spread s.tRat s.scale xoff yoff).tb
            fb := (buildOut s.Pts s.spread s.tRat s.scale xoff yoff).fb },
          buildOut s.Pts s.spread s.tRat s.scale xoff yoff)

/-- Well-formedness of the slice model: the current window fits inside
the backing store.  Every surface reachable through `newSurface` and
`Surface.Resize` satisfies it. -/
def WF (s : Surface) : Prop :=
  s.w ≤ s.back.length ∧ ∀ r ∈ s.back, s.h ≤ r.length

instance (s : Surface) : Decidable (WF s) := by
  unfold WF; infer_instance

/-- The u and v entries of a texture buffer: every first and second
float of each 4-float `(u, v, textureIndex, blend)` vertex record. -/
def uvEntries : List ℚ → List ℚ
  | u :: v :: _ :: _ :: rest => u :: v :: uvEntries rest
  | _ => []

/-- Left/bottom seam correction (surface.go lines 174-177 and 182-185)
as a function of the uncorrected coordinate. -/
def cLow (v : ℚ) : ℚ := if v = 0 then v + border else v

/-- Right/top seam correction (surface.go lines 178-181 and 186-189). -/
def cHigh (trat v : ℚ) : ℚ := if v = trat then v - border else v

/-- Uncorrected u coordinate of a quad's left edge, `basex*textureRatio`. -/
def baseU (spread : ℤ) (trat : ℚ) (xoff : ℤ) (x : ℕ) : ℚ :=
  ((Int.tmod ((x : ℤ) + xoff) spread : ℤ) : ℚ) / ((spread : ℤ) : ℚ) * trat

/-- Uncorrected v coordinate of a quad's bottom edge, `basey*textureRatio`. -/
def baseV (spread : ℤ) (trat : ℚ) (yoff : ℤ) (y : ℕ) : ℚ :=
  (1 - ((Int.tmod ((y : ℤ) + yoff) spread : ℤ) : ℚ) / ((spread : ℤ) : ℚ)
    - 1 / ((spread : ℤ) : ℚ)) * trat

/-- The empty mesh sink used for concrete instantiations. -/
def mEmpty : Model := ⟨[], [], [], []⟩

/-- A concrete 3×1 grid with height x (slope 1 everywhere). -/
def gC6 : List (List SurfacePoint) := [[⟨0, 0, 0⟩], [⟨1, 0, 0⟩], [⟨2, 0, 0⟩]]

def sC9 : Surface := newSurface 2 2 1 1 1

def pC9 : Surface × Model := (sC9.Update mEmpty 0 0).getD (sC9, mEmpty)

def sC10 : Surface := newSurface 1 3 2 1 1

def mC10 : Model := ⟨[1], [⟨0, 1, 0⟩], [2], [7]⟩

def sC4 : Surface := newSurface 3 3 1 1 1

def sC2 : Surface := newSurface 3 3 2 1 1

def pC2 : Surface × Model := (sC2.Update mEmpty 0 0).getD (sC2, mEmpty)

def sC8 : Surface := newSurface 3 3 2 1 1

def mC8 : Model := ⟨[5], [], [], [9]⟩

def sC5 : Surface := newSurface 2 2 2 1 1

def pC5 : Surface × Model := (sC5.Update mEmpty 0 0).getD (sC5, mEmpty)

def sC7 : Surface := newSurface 3 3 1 1 1

/-- The texture record one quad produces in the C7 scenario: uv corners
corrected inward from (0,0)–(1,1) to (0.001,0.001)–(0.999,0.999), and
the origin-corner sample's textureIndex 0 and blend 0 on all four
vertices. -/
def tbQuad7 : List ℚ :=
  [1 / 1000, 999 / 1000, 0, 0,
   999 / 1000, 999 / 1000, 0, 0,
   1 / 1000, 1 / 1000, 0, 0,
   999 / 1000, 1 / 1000, 0, 0]

attribute [irreducible] quadTB

/-! ### Lemmas and claim theorems -/

theorem flatMap_length_const {α β : Type} (f : α → List β) (c : ℕ) :
    ∀ l : List α, (∀ a ∈ l, (f a).length = c) → (l.flatMap f).length = c * l.length := by
  intro l
  induction l with
  | nil => intro _; simp
  | cons a l ih =>
    intro hl
    simp only [List.flatMap_cons, List.length_append, List.length_cons]
    rw [hl a (by simp), ih (fun b hb => hl b (by simp [hb]))]
    ring

theorem quadList_length (sx sy : ℕ) : (quadList sx sy).length = (sx - 1) * (sy - 1) := by
  unfold quadList
  rw [flatMap_length_const _ (sy - 1) _ (by intro a _; simp)]
  simp [Nat.mul_comm]

theorem mem_quadList {sx sy : ℕ} {q : ℕ × ℕ} :
    q ∈ quadList sx sy ↔ q.1 < sx - 1 ∧ q.2 < sy - 1 := by
  obtain ⟨x, y⟩ := q
  constructor
  · intro hq
    simp only [quadList, List.mem_flatMap, List.mem_map, List.mem_range] at hq
    obtain ⟨a, ha, b, hb, hab⟩ := hq
    obtain ⟨rfl, rfl⟩ := Prod.mk.injEq .. ▸ hab
    exact ⟨by simpa using ha, by simpa using hb⟩
  · rintro ⟨hx, hy⟩
    simp only [quadList, List.mem_flatMap, List.mem_map, List.mem_range]
    exact ⟨x, hx, y, hy, rfl⟩

theorem quadFB_mod_add (a b : ℕ) : quadFB (a % 65536 + b) = quadFB (a + b) := by
  simp [quadFB, Nat.add_assoc, Nat.mod_add_mod]

theorem buildStep_foldl (g : List (List SurfacePoint)) (sx sy : ℕ) (spread : ℤ)
    (trat scale : ℚ) (xoff yoff : ℤ) :
    ∀ (qs : List (ℕ × ℕ)) (b : Model) (vc : ℕ), vc < 65536 →
      qs.foldl (buildStep g sx sy spread trat scale xoff yoff) (b, vc) =
        (⟨b.vb ++ qs.flatMap (fun q => quadVB g scale q.1 q.2),
          b.nb ++ qs.flatMap (fun q => quadNB g sx sy scale q.1 q.2),
          b.tb ++ qs.flatMap (fun q => quadTB g spread trat xoff yoff q.1 q.2),
          b.fb ++ (List.range qs.length).flatMap (fun k => quadFB (vc + 4 * k))⟩,
         (vc + 4 * qs.length) % 65536) := by
  intro qs
  induction qs with
  | nil =>
    intro b vc hvc
    simp [Nat.mod_eq_of_lt hvc]
  | cons q qs ih =>
    intro b vc hvc
    rw [List.foldl_cons,
      show buildStep g sx sy spread trat scale xoff yoff (b, vc) q =
        (⟨b.vb ++ quadVB g scale q.1 q.2, b.nb ++ quadNB g sx sy scale q.1 q.2,
          b.tb ++ quadTB g spread trat xoff yoff q.1 q.2, b.fb ++ quadFB vc⟩,
         (vc + 4) % 65536) from rfl,
      ih _ _ (Nat.mod_lt _ (by norm_num))]
    have hfun : (fun k => quadFB ((vc + 4) % 65536 + 4 * k))
        = (fun k => quadFB (vc + 4 * (k + 1))) := by
      funext k
      rw [quadFB_mod_add]
      congr 1
      ring
    simp only [Prod.mk.injEq, Model.mk.injEq, hfun]
    refine ⟨⟨?_, ?_, ?_, ?_⟩, ?_⟩
    · simp [List.flatMap_cons, List.append_assoc]
    · simp [List.flatMap_cons, List.append_assoc]
    · simp [List.flatMap_cons, List.append_assoc]
    · rw [List.length_cons, List.range_succ_eq_map, List.flatMap_cons, List.flatMap_map,
        List.append_assoc]
      simp only [Nat.mul_zero, Nat.add_zero, Function.comp, Nat.succ_eq_add_one]
    · rw [Nat.mod_add_mod, List.length_cons]
      congr 1
      ring

theorem buildOut_eq (g : List (List SurfacePoint)) (spread : ℤ) (trat scale : ℚ)
    (xoff yoff : ℤ) :
    buildOut g spread trat scale xoff yoff =
      ⟨(quadList g.length (g.headD []).length).flatMap (fun q => quadVB g scale q.1 q.2),
       (quadList g.length (g.headD []).length).flatMap
         (fun q => quadNB g g.length (g.headD []).length scale q.1 q.2),
       (quadList g.length (g.headD []).length).flatMap
         (fun q => quadTB g spread trat xoff yoff q.1 q.2),
       (List.range ((g.length - 1) * ((g.headD []).length - 1))).flatMap
         (fun k => quadFB (4 * k))⟩ := by
  unfold buildOut
  rw [buildStep_foldl g _ _ spread trat scale xoff yoff _ _ 0 (by norm_num)]
  simp [quadList_length]

theorem Update_eq_some (s : Surface) (m : Model) (xoff yoff : ℤ)
    (h1 : ¬s.Pts.length = 0)
    (h2 : ¬(s.spread = 0 ∧ 2 ≤ s.Pts.length ∧ 2 ≤ (s.Pts.headD []).length)) :
    s.Update m xoff yoff =
      some ({ s with
              nms := normsOut s.Pts s.scale
              vb := (buildOut s.Pts s.spread s.tRat s.scale xoff yoff).vb
              nb := (buildOut s.Pts s.spread s.tRat s.scale xoff yoff).nb
              tb := (buildOut s.Pts s.spread s.tRat s.scale xoff yoff).tb
              fb := (buildOut s.Pts s.spread s.tRat s.scale xoff yoff).fb },
            buildOut s.Pts s.spread s.tRat s.scale xoff yoff) := by
  unfold Surface.Update
  rw [if_neg h1, if_neg h2]

theorem Update_inv (s : Surface) (m : Model) (xoff yoff : ℤ) (s' : Surface) (m' : Model)
    (hup : s.Update m xoff yoff = some (s', m')) :
    m' = buildOut s.Pts s.spread s.tRat s.scale xoff yoff
    ∧ s' = { s with
             nms := normsOut s.Pts s.scale
             vb := (buildOut s.Pts s.spread s.tRat s.scale xoff yoff).vb
             nb := (buildOut s.Pts s.spread s.tRat s.scale xoff yoff).nb
             tb := (buildOut s.Pts s.spread s.tRat s.scale xoff yoff).tb
             fb := (buildOut s.Pts s.spread s.tRat s.scale xoff yoff).fb } := by
  unfold Surface.Update at hup
  split_ifs at hup
  simp only [Option.some.injEq, Prod.mk.injEq] at hup
  exact ⟨hup.2.symm, hup.1.symm⟩

theorem Pts_length (s : Surface) (hw : s.w ≤ s.back.length) : s.Pts.length = s.w := by
  unfold Surface.Pts
  rw [List.length_map, List.length_take]
  exact Nat.min_eq_left hw

theorem Pts_head_length (s : Surface) (hwf : WF s) (hw : 1 ≤ s.w) :
    (s.Pts.headD []).length = s.h := by
  obtain ⟨hw1, hrow⟩ := hwf
  unfold Surface.Pts
  obtain ⟨w', hw'⟩ : ∃ w', s.w = w' + 1 := ⟨s.w - 1, by omega⟩
  rcases hback : s.back with _ | ⟨r, rest⟩
  · rw [hback] at hw1; simp at hw1; omega
  · rw [hw', List.take_succ_cons, List.map_cons, List.headD_cons, List.length_take]
    exact Nat.min_eq_left (hrow r (by rw [hback]; exact List.mem_cons_self r rest))

theorem Pts_row_length (s : Surface) (hrow : ∀ r ∈ s.back.take s.w, s.h ≤ r.length) :
    ∀ r ∈ s.Pts, r.length = s.h := by
  intro r hr
  unfold Surface.Pts at hr
  obtain ⟨r0, hr0, rfl⟩ := List.mem_map.mp hr
  rw [List.length_take]
  exact Nat.min_eq_left (hrow r0 hr0)

theorem pAt_Pts (s : Surface) (x y : ℕ) (hx : x < s.w) (hxb : x < s.back.length)
    (hy : y < s.h) (hyb : s.h ≤ (s.back.getD x []).length) :
    pAt s.Pts x y = (s.back.getD x []).getD y default := by
  unfold Surface.Pts pAt
  have hxt : x < (s.back.take s.w).length := by
    rw [List.length_take]; omega
  have hxm : x < ((s.back.take s.w).map (fun r => r.take s.h)).length := by
    rw [List.length_map]; exact hxt
  rw [List.getD_eq_getElem _ _ hxm, List.getElem_map, List.getElem_take]
  have hback : s.back.getD x [] = s.back[x] := List.getD_eq_getElem _ _ hxb
  rw [hback] at hyb ⊢
  have hyt : y < (s.back[x].take s.h).length := by
    rw [List.length_take]; omega
  rw [List.getD_eq_getElem _ _ hyt, List.getElem_take,
    List.getD_eq_getElem _ _ (by omega)]

theorem getD_replicate {α : Type} (a d : α) {n i : ℕ} (h : i < n) :
    (List.replicate n a).getD i d = a := by
  rw [List.getD_eq_getElem _ _ (by simpa using h), List.getElem_replicate]

theorem headD_replicate {α : Type} {n : ℕ} (hn : 0 < n) (a d : α) :
    (List.replicate n a).headD d = a := by
  obtain ⟨m, rfl⟩ : ∃ m, n = m + 1 := ⟨n - 1, by omega⟩
  rw [List.replicate_succ, List.headD_cons]

theorem Pts_newSurface (sx sy : ℕ) (spread : ℤ) (tr sc : ℚ) :
    (newSurface sx sy spread tr sc).Pts = List.replicate sx (List.replicate sy default) := by
  unfold newSurface Surface.Pts
  simp [List.take_replicate, List.map_replicate]

theorem WF_newSurface (sx sy : ℕ) (spread : ℤ) (tr sc : ℚ) :
    WF (newSurface sx sy spread tr sc) := by
  unfold WF newSurface
  refine ⟨by simp, ?_⟩
  intro r hr
  simp only at hr
  rw [List.eq_of_mem_replicate hr]
  simp

theorem uvEntries_append : ∀ a : List ℚ, a.length % 4 = 0 →
    ∀ b, uvEntries (a ++ b) = uvEntries a ++ uvEntries b := by
  intro a
  induction a using uvEntries.induct with
  | case1 u v t w rest ih =>
    intro h b
    simp only [List.length_cons] at h
    simp only [List.cons_append, uvEntries, List.append_eq]
    rw [ih (by omega) b]
  | case2 t hne =>
    intro h b
    match t, hne with
    | [], _ => simp [uvEntries]
    | [u], _ => simp at h
    | [u, v], _ => simp at h
    | [u, v, w], _ => simp at h
    | u :: v :: w :: x :: rest, hne => exact absurd rfl (hne u v w x rest)

theorem uvEntries_flatMap {α : Type} (f : α → List ℚ) (hf : ∀ a, (f a).length % 4 = 0) :
    ∀ l : List α, uvEntries (l.flatMap f) = l.flatMap (fun a => uvEntries (f a)) := by
  intro l
  induction l with
  | nil => simp [uvEntries]
  | cons a l ih =>
    rw [List.flatMap_cons, List.flatMap_cons, uvEntries_append _ (hf a), ih]

theorem tmod_bounds {a b : ℤ} (ha : 0 ≤ a) (hb : 1 ≤ b) :
    0 ≤ Int.tmod a b ∧ Int.tmod a b < b := by
  rw [Int.tmod_eq_emod ha (by omega)]
  exact ⟨Int.emod_nonneg a (by omega), Int.emod_lt_of_pos a (by omega)⟩

theorem tmod_add_right {a b : ℤ} (ha : 0 ≤ a) (hb : 1 ≤ b) :
    Int.tmod (a + b) b = Int.tmod a b := by
  rw [Int.tmod_eq_emod (by omega) (by omega), Int.tmod_eq_emod ha (by omega)]
  simpa using Int.add_mul_emod_self_left a b 1

theorem flatMap_range_length {α : Type} (f : ℕ → List α) (c : ℕ)
    (hc : ∀ k, (f k).length = c) (n : ℕ) :
    ((List.range n).flatMap f).length = c * n := by
  rw [flatMap_length_const f c _ (fun a _ => hc a), List.length_range]

theorem flatMap_range_getD {α : Type} (f : ℕ → List α) (c : ℕ)
    (hc : ∀ k, (f k).length = c) :
    ∀ (n i j : ℕ), i < n → j < c → ∀ d : α,
      ((List.range n).flatMap f).getD (c * i + j) d = (f i).getD j d := by
  intro n
  induction n with
  | zero => intro i j hi _ d; omega
  | succ n ih =>
    intro i j hi hj d
    rw [List.range_succ, List.flatMap_append]
    rcases Nat.lt_or_ge i n with h | h
    · have hlt : c * i + j < ((List.range n).flatMap f).length := by
        rw [flatMap_range_length f c hc]
        calc c * i + j < c * i + c := by omega
          _ = c * (i + 1) := by ring
          _ ≤ c * n := Nat.mul_le_mul_left c h
      rw [List.getD_append _ _ _ _ hlt]
      exact ih i j h hj d
    · have hi' : i = n := by omega
      rw [hi']
      have hge : ((List.range n).flatMap f).length ≤ c * n + j := by
        rw [flatMap_range_length f c hc]; omega
      rw [List.getD_append_right _ _ _ _ hge, flatMap_range_length f c hc]
      simp

theorem quadTB_eq (g : List (List SurfacePoint)) (spread : ℤ) (trat : ℚ) (xoff yoff : ℤ)
    (x y : ℕ) :
    quadTB g spread trat xoff yoff x y =
      [cLow (baseU spread trat xoff x),
       cHigh trat (baseV spread trat yoff y + trat / ((spread : ℤ) : ℚ)),
       (((pAt g x y).tindex : ℤ) : ℚ), (pAt g x y).blend,
       cHigh trat (baseU spread trat xoff x + trat / ((spread : ℤ) : ℚ)),
       cHigh trat (baseV spread trat yoff y + trat / ((spread : ℤ) : ℚ)),
       (((pAt g x y).tindex : ℤ) : ℚ), (pAt g x y).blend,
       cLow (baseU spread trat xoff x),
       cLow (baseV spread trat yoff y),
       (((pAt g x y).tindex : ℤ) : ℚ), (pAt g x y).blend,
       cHigh trat (baseU spread trat xoff x + trat / ((spread : ℤ) : ℚ)),
       cLow (baseV spread trat yoff y),
       (((pAt g x y).tindex : ℤ) : ℚ), (pAt g x y).blend] := by
  simp only [quadTB, cLow, cHigh, baseU, baseV]
  split_ifs <;> rfl

theorem uvEntries_quadTB (g : List (List SurfacePoint)) (spread : ℤ) (trat : ℚ)
    (xoff yoff : ℤ) (x y : ℕ) :
    uvEntries (quadTB g spread trat xoff yoff x y) =
      [cLow (baseU spread trat xoff x),
       cHigh trat (baseV spread trat yoff y + trat / ((spread : ℤ) : ℚ)),
       cHigh trat (baseU spread trat xoff x + trat / ((spread : ℤ) : ℚ)),
       cHigh trat (baseV spread trat yoff y + trat / ((spread : ℤ) : ℚ)),
       cLow (baseU spread trat xoff x),
       cLow (baseV spread trat yoff y),
       cHigh trat (baseU spread trat xoff x + trat / ((spread : ℤ) : ℚ)),
       cLow (baseV spread trat yoff y)] := by
  rw [quadTB_eq]
  rfl

theorem quadTB_length_mod (g : List (List SurfacePoint)) (spread : ℤ) (trat : ℚ)
    (xoff yoff : ℤ) (x y : ℕ) :
    (quadTB g spread trat xoff yoff x y).length % 4 = 0 := by
  rw [quadTB_eq]
  simp

theorem cLow_bounds {trat w v : ℚ} (hw : border ≤ w) (h2 : 2 * border ≤ trat)
    (hv : v = 0 ∨ (w ≤ v ∧ v ≤ trat - w)) :
    border ≤ cLow v ∧ cLow v ≤ trat - border := by
  have hb : (0 : ℚ) < border := by norm_num [border]
  rcases hv with rfl | ⟨h1, h3⟩
  · rw [cLow, if_pos rfl]
    constructor <;> linarith
  · have hv0 : v ≠ 0 := by linarith
    rw [cLow, if_neg hv0]
    constructor <;> linarith

theorem cHigh_bounds {trat w v : ℚ} (hw : border ≤ w) (h2 : 2 * border ≤ trat)
    (hv : v = trat ∨ (w ≤ v ∧ v ≤ trat - w)) :
    border ≤ cHigh trat v ∧ cHigh trat v ≤ trat - border := by
  have hb : (0 : ℚ) < border := by norm_num [border]
  rcases hv with rfl | ⟨h1, h3⟩
  · rw [cHigh, if_pos rfl]
    constructor <;> linarith
  · have hvt : v ≠ trat := by linarith
    rw [cHigh, if_neg hvt]
    constructor <;> linarith

theorem scaled_cases_low {spread : ℤ} {trat : ℚ} {k : ℤ}
    (hsp : 1 ≤ spread) (hbs : border * ((spread : ℤ) : ℚ) ≤ trat)
    (hk0 : 0 ≤ k) (hk1 : k ≤ spread - 1) :
    (k : ℚ) * (trat / ((spread : ℤ) : ℚ)) = 0
    ∨ (trat / ((spread : ℤ) : ℚ) ≤ (k : ℚ) * (trat / ((spread : ℤ) : ℚ))
       ∧ (k : ℚ) * (trat / ((spread : ℤ) : ℚ)) ≤ trat - trat / ((spread : ℤ) : ℚ)) := by
  have hb : (0 : ℚ) < border := by norm_num [border]
  have hs : (0 : ℚ) < ((spread : ℤ) : ℚ) := by exact_mod_cast hsp
  have hw : border ≤ trat / ((spread : ℤ) : ℚ) := (le_div_iff hs).mpr (by linarith)
  have hw0 : (0 : ℚ) < trat / ((spread : ℤ) : ℚ) := lt_of_lt_of_le hb hw
  rcases eq_or_lt_of_le hk0 with h0 | h0
  · left
    rw [← h0]
    simp
  · right
    have hk1' : (1 : ℚ) ≤ (k : ℚ) := by exact_mod_cast h0
    have hks : (k : ℚ) ≤ ((spread : ℤ) : ℚ) - 1 := by
      have : (k : ℚ) ≤ ((spread - 1 : ℤ) : ℚ) := by exact_mod_cast hk1
      push_cast at this
      linarith
    constructor
    · exact le_mul_of_one_le_left (le_of_lt hw0) hk1'
    · have step : (k : ℚ) * (trat / ((spread : ℤ) : ℚ))
          ≤ (((spread : ℤ) : ℚ) - 1) * (trat / ((spread : ℤ) : ℚ)) :=
        mul_le_mul_of_nonneg_right hks (le_of_lt hw0)
      have hfin : (((spread : ℤ) : ℚ) - 1) * (trat / ((spread : ℤ) : ℚ))
          = trat - trat / ((spread : ℤ) : ℚ) := by
        field_simp
        ring
      linarith

theorem scaled_cases_high {spread : ℤ} {trat : ℚ} {k : ℤ}
    (hsp : 1 ≤ spread) (hbs : border * ((spread : ℤ) : ℚ) ≤ trat)
    (hk1 : 1 ≤ k) (hk : k ≤ spread) :
    (k : ℚ) * (trat / ((spread : ℤ) : ℚ)) = trat
    ∨ (trat / ((spread : ℤ) : ℚ) ≤ (k : ℚ) * (trat / ((spread : ℤ) : ℚ))
       ∧ (k : ℚ) * (trat / ((spread : ℤ) : ℚ)) ≤ trat - trat / ((spread : ℤ) : ℚ)) := by
  have hb : (0 : ℚ) < border := by norm_num [border]
  have hs : (0 : ℚ) < ((spread : ℤ) : ℚ) := by exact_mod_cast hsp
  have hw : border ≤ trat / ((spread : ℤ) : ℚ) := (le_div_iff hs).mpr (by linarith)
  have hw0 : (0 : ℚ) < trat / ((spread : ℤ) : ℚ) := lt_of_lt_of_le hb hw
  rcases eq_or_lt_of_le hk with h0 | h0
  · left
    rw [h0]
    field_simp
  · right
    have hk1' : (1 : ℚ) ≤ (k : ℚ) := by exact_mod_cast hk1
    have hks : (k : ℚ) ≤ ((spread : ℤ) : ℚ) - 1 := by
      have hkk : k ≤ spread - 1 := by omega
      have : (k : ℚ) ≤ ((spread - 1 : ℤ) : ℚ) := by exact_mod_cast hkk
      push_cast at this
      linarith
    constructor
    · exact le_mul_of_one_le_left (le_of_lt hw0) hk1'
    · have step : (k : ℚ) * (trat / ((spread : ℤ) : ℚ))
          ≤ (((spread : ℤ) : ℚ) - 1) * (trat / ((spread : ℤ) : ℚ)) :=
        mul_le_mul_of_nonneg_right hks (le_of_lt hw0)
      have hfin : (((spread : ℤ) : ℚ) - 1) * (trat / ((spread : ℤ) : ℚ))
          = trat - trat / ((spread : ℤ) : ℚ) := by
        field_simp
        ring
      linarith

theorem baseU_eq (spread : ℤ) (trat : ℚ) (xoff : ℤ) (x : ℕ) :
    baseU spread trat xoff x
      = ((Int.tmod ((x : ℤ) + xoff) spread : ℤ) : ℚ) * (trat / ((spread : ℤ) : ℚ)) := by
  unfold baseU
  ring

theorem baseV_eq (spread : ℤ) (trat : ℚ) (yoff : ℤ) (y : ℕ) (hs : ((spread : ℤ) : ℚ) ≠ 0) :
    baseV spread trat yoff y
      = ((spread - 1 - Int.tmod ((y : ℤ) + yoff) spread : ℤ) : ℚ)
        * (trat / ((spread : ℤ) : ℚ)) := by
  unfold baseV
  have hcast : ((spread - 1 - Int.tmod ((y : ℤ) + yoff) spread : ℤ) : ℚ)
      = ((spread : ℤ) : ℚ) - 1 - ((Int.tmod ((y : ℤ) + yoff) spread : ℤ) : ℚ) := by
    push_cast
    ring
  have key : 1 - ((Int.tmod ((y : ℤ) + yoff) spread : ℤ) : ℚ) / ((spread : ℤ) : ℚ)
        - 1 / ((spread : ℤ) : ℚ)
      = (((spread : ℤ) : ℚ) - ((Int.tmod ((y : ℤ) + yoff) spread : ℤ) : ℚ) - 1)
        / ((spread : ℤ) : ℚ) := by
    rw [eq_div_iff hs, sub_mul, sub_mul, one_mul, div_mul_cancel₀ _ hs,
      div_mul_cancel₀ _ hs]
  rw [hcast, key, div_mul_eq_mul_div, mul_div_assoc, sub_right_comm]

theorem yslope_const {g : List (List SurfacePoint)} {sx sy : ℕ} {c : ℚ}
    (hlin : ∀ x < sx, ∀ y < sy, hAt g x y = c * (x : ℚ))
    {x y : ℕ} (hx : x < sx) (hy : y < sy) :
    yslopeAt g sy x y = 0 := by
  simp only [yslopeAt]
  have hymax : (if y < sy - 1 then y + 1 else y) < sy := by split_ifs <;> omega
  have hymin : (if 0 < y then y - 1 else y) < sy := by split_ifs <;> omega
  rw [hlin x hx _ hymax, hlin x hx _ hymin]
  simp

theorem xslope_at_zero {g : List (List SurfacePoint)} {sx sy : ℕ} {c : ℚ} (hsx : 3 ≤ sx)
    (hlin : ∀ x < sx, ∀ y < sy, hAt g x y = c * (x : ℚ)) {y : ℕ} (hy : y < sy) :
    xslopeAt g sx 0 y = 2 * c := by
  simp only [xslopeAt]
  rw [if_pos (show (0 : ℕ) < sx - 1 by omega), if_neg (lt_irrefl 0),
    if_pos (Or.inl trivial), Nat.zero_add]
  rw [hlin 1 (by omega) y hy, hlin 0 (by omega) y hy]
  push_cast
  ring

theorem xslope_at_top {g : List (List SurfacePoint)} {sx sy : ℕ} {c : ℚ} (hsx : 3 ≤ sx)
    (hlin : ∀ x < sx, ∀ y < sy, hAt g x y = c * (x : ℚ)) {y : ℕ} (hy : y < sy) :
    xslopeAt g sx (sx - 1) y = 2 * c := by
  simp only [xslopeAt]
  rw [if_neg (lt_irrefl (sx - 1)), if_pos (show 0 < sx - 1 by omega),
    if_pos (Or.inr trivial)]
  rw [hlin (sx - 1) (by omega) y hy, hlin (sx - 1 - 1) (by omega) y hy]
  have h1 : ((sx - 1 : ℕ) : ℚ) = (sx : ℚ) - 1 := by
    rw [Nat.cast_sub (by omega)]
    norm_num
  have h2 : ((sx - 1 - 1 : ℕ) : ℚ) = (sx : ℚ) - 2 := by
    rw [show sx - 1 - 1 = sx - 2 by omega, Nat.cast_sub (by omega)]
    norm_num
  rw [h1, h2]
  ring

theorem xslope_interior {g : List (List SurfacePoint)} {sx sy : ℕ} {c : ℚ}
    (hlin : ∀ x < sx, ∀ y < sy, hAt g x y = c * (x : ℚ)) {x y : ℕ}
    (hx1 : 1 ≤ x) (hx2 : x + 1 < sx) (hy : y < sy) :
    xslopeAt g sx x y = 2 * c := by
  simp only [xslopeAt]
  rw [if_pos (show x < sx - 1 by omega), if_pos (show 0 < x by omega),
    if_neg (show ¬(x = 0 ∨ x = sx - 1) by omega)]
  rw [hlin (x + 1) (by omega) y hy, hlin (x - 1) (by omega) y hy]
  have h1 : ((x + 1 : ℕ) : ℚ) = (x : ℚ) + 1 := by push_cast; ring
  have h2 : ((x - 1 : ℕ) : ℚ) = (x : ℚ) - 1 := by
    rw [Nat.cast_sub (by omega)]
    norm_num
  rw [h1, h2]
  ring

/-- C6: on a height field that is linear in x (height = c·x for every
grid point, constant along y), the unit normal the estimator computes
at the x-boundary points (x = 0 and x = sx−1) equals the unit normal at
any interior point: the one-sided boundary slope, sampled over a halved
baseline, is doubled before the normal (−xSlope·scale, 2, ySlope·scale)
is formed and normalized, so all three raw normals coincide. -/
theorem c6_boundary_normal (g : List (List SurfacePoint)) (sx sy : ℕ) (c sc : ℚ)
    (y0 yi xi : ℕ) (hsx : 3 ≤ sx) (hy0 : y0 < sy) (hyi : yi < sy)
    (hxi1 : 1 ≤ xi) (hxi2 : xi + 1 < sx)
    (hlin : ∀ x < sx, ∀ y < sy, hAt g x y = c * (x : ℚ)) :
    normalize3 (rawNormal g sx sy sc 0 y0) = normalize3 (rawNormal g sx sy sc xi yi)
    ∧ normalize3 (rawNormal g sx sy sc (sx - 1) y0)
      = normalize3 (rawNormal g sx sy sc xi yi) := by
  have h0 : rawNormal g sx sy sc 0 y0 = ⟨-(2 * c) * sc, 2 * 1, 0 * sc⟩ := by
    unfold rawNormal
    rw [xslope_at_zero hsx hlin hy0, yslope_const hlin (by omega) hy0]
  have hi : rawNormal g sx sy sc xi yi = ⟨-(2 * c) * sc, 2 * 1, 0 * sc⟩ := by
    unfold rawNormal
    rw [xslope_interior hlin hxi1 hxi2 hyi, yslope_const hlin (by omega) hyi]
  have ht : rawNormal g sx sy sc (sx - 1) y0 = ⟨-(2 * c) * sc, 2 * 1, 0 * sc⟩ := by
    unfold rawNormal
    rw [xslope_at_top hsx hlin hy0, yslope_const hlin (by omega) hy0]
  rw [h0, hi, ht]
  exact ⟨rfl, rfl⟩

theorem c6_boundary_normal_witness :
    ((3 : ℕ) ≤ 3 ∧ (0 : ℕ) < 1 ∧ (1 : ℕ) ≤ 1 ∧ 1 + 1 < 3
      ∧ (∀ x < 3, ∀ y < 1, hAt gC6 x y = 1 * (x : ℚ)))
    ∧ (normalize3 (rawNormal gC6 3 1 1 0 0) = normalize3 (rawNormal gC6 3 1 1 1 0)
       ∧ normalize3 (rawNormal gC6 3 1 1 (3 - 1) 0)
         = normalize3 (rawNormal gC6 3 1 1 1 0)) :=
  ⟨⟨by norm_num, by norm_num, by norm_num, by norm_num, by
      intro x hx y hy
      interval_cases x <;> interval_cases y <;> norm_num [hAt, pAt, gC6]⟩,
   c6_boundary_normal gC6 3 1 1 1 0 0 1 (by norm_num) (by norm_num) (by norm_num)
     (by norm_num) (by norm_num) (by
      intro x hx y hy
      interval_cases x <;> interval_cases y <;> norm_num [hAt, pAt, gC6])⟩

/-- C9: Update never writes the sample grid.  After a successful
Update the backing store, the view dimensions, the grid exposed by Pts
and the construction parameters are all unchanged; only the scratch
buffers, the normal scratch and the delivered mesh differ. -/
theorem c9_update_reads_only (s : Surface) (m : Model) (xo yo : ℤ)
    (s' : Surface) (m' : Model) (hup : s.Update m xo yo = some (s', m')) :
    s'.back = s.back ∧ s'.w = s.w ∧ s'.h = s.h ∧ s'.Pts = s.Pts
    ∧ s'.tRat = s.tRat ∧ s'.scale = s.scale ∧ s'.spread = s.spread := by
  obtain ⟨-, hs⟩ := Update_inv s m xo yo s' m' hup
  subst hs
  exact ⟨rfl, rfl, rfl, rfl, rfl, rfl, rfl⟩

theorem c9_update_reads_only_witness :
    sC9.Update mEmpty 0 0 = some (pC9.1, pC9.2)
    ∧ (pC9.1.back = sC9.back ∧ pC9.1.w = sC9.w ∧ pC9.1.h = sC9.h
       ∧ pC9.1.Pts = sC9.Pts ∧ pC9.1.tRat = sC9.tRat ∧ pC9.1.scale = sC9.scale
       ∧ pC9.1.spread = sC9.spread) :=
  ⟨rfl, c9_update_reads_only sC9 mEmpty 0 0 pC9.1 pC9.2 rfl⟩

/-- C10: with a single-row or single-column grid (and at least one grid
point) the quad loops emit nothing: Update succeeds, delivers four
empty buffers to the mesh sink — replacing whatever the sink previously
held, since the delivered model is built solely from this rebuild —
truncates the scratch buffers to empty, and still computes a normal
into scratch for every existing grid point (`normalize3` of the stored
vector being the unit normal the Go code stores). -/
theorem c10_degenerate_grid (s : Surface) (m : Model) (xo yo : ℤ)
    (hwf : WF s) (hw : 1 ≤ s.w) (hh : 1 ≤ s.h) (hdeg : s.w = 1 ∨ s.h = 1) :
    s.Update m xo yo =
      some ({ s with
              nms := (List.range s.w).map (fun x =>
                (List.range s.h).map (fun y => rawNormal s.Pts s.w s.h s.scale x y))
              vb := []
              nb := []
              tb := []
              fb := [] },
            ⟨[], [], [], []⟩) := by
  have hsx : s.Pts.length = s.w := Pts_length s hwf.1
  have hsy : (s.Pts.headD []).length = s.h := Pts_head_length s hwf hw
  have h1 : ¬s.Pts.length = 0 := by omega
  have h2 : ¬(s.spread = 0 ∧ 2 ≤ s.Pts.length ∧ 2 ≤ (s.Pts.headD []).length) := by
    rintro ⟨-, ha, hb⟩
    rw [hsx] at ha
    rw [hsy] at hb
    omega
  have hql : quadList s.Pts.length (s.Pts.headD []).length = [] := by
    rw [hsx, hsy]
    unfold quadList
    rcases hdeg with hd | hd <;> rw [hd] <;> simp
  have hbo : buildOut s.Pts s.spread s.tRat s.scale xo yo = ⟨[], [], [], []⟩ := by
    unfold buildOut
    rw [hql]
    rfl
  rw [Update_eq_some s m xo yo h1 h2, hbo]
  unfold normsOut
  rw [hsx, hsy]

theorem c10_degenerate_grid_witness :
    (WF sC10 ∧ 1 ≤ sC10.w ∧ 1 ≤ sC10.h ∧ (sC10.w = 1 ∨ sC10.h = 1))
    ∧ sC10.Update mC10 0 0 =
      some ({ sC10 with
              nms := (List.range sC10.w).map (fun x =>
                (List.range sC10.h).map (fun y =>
                  rawNormal sC10.Pts sC10.w sC10.h sC10.scale x y))
              vb := []
              nb := []
              tb := []
              fb := [] },
            ⟨[], [], [], []⟩) :=
  ⟨⟨by decide, by decide, by decide, by decide⟩,
   c10_degenerate_grid sC10 mC10 0 0 (by decide) (by decide) (by decide) (by decide)⟩

/-- C3 evaluation at the failing inputs: construction performs no
parameter validation.  `newSurface` with `spread = 0` (or a
non-positive atlas ratio) reports no error and returns a surface
storing the invalid parameters verbatim, exposing a full 3×3 grid; the
failure surfaces only later, when Update on that surface reaches the
integer `% spread` and panics (modelled as `none`).  With `sx = 0` the
constructor also succeeds, and Update panics on `len(s.pts[0])`. -/
theorem c3_no_construction_validation :
    (newSurface 3 3 0 1 1).spread = 0
    ∧ (newSurface 3 3 0 1 1).Pts.length = 3
    ∧ ((newSurface 3 3 0 1 1).Pts.headD []).length = 3
    ∧ (newSurface 3 3 0 1 1).Update mEmpty 0 0 = none
    ∧ (newSurface 3 3 1 (-1) 1).tRat = -1
    ∧ (newSurface 0 3 1 1 1).Pts.length = 0
    ∧ (newSurface 0 3 1 1 1).Update mEmpty 0 0 = none := by
  refine ⟨by decide, by decide, by decide, by decide, by decide, by decide, by decide⟩

/-- C4 counterexample: after `Resize(2,2)` the current width is 2, and
the call `Resize(3,3)` — a growth request — is not rejected: the
reslice stays within the original backing capacity, succeeds silently,
and restores the full 3×3 grid (the resulting surface is the original
one), so the grid does not remain unchanged either. -/
theorem c4_growth_not_rejected :
    (sC4.Resize 2 2).map (fun s1 => s1.w) = some 2
    ∧ (sC4.Resize 2 2).bind (fun s1 => s1.Resize 3 3) = some sC4 := by
  refine ⟨by decide, by decide⟩

/-- C4 amended: `Resize(w,h)` is rejected (a Go reslice panic) exactly
when the request exceeds the backing capacity — in particular any
growth beyond the originally allocated grid — leaving the grid
unchanged; any request within the backing capacity succeeds, including
growth back over a previously shrunk region, and exposes a `w × h`
view of the backing store; for a genuine shrink (w ≤ current width,
h ≤ current height) the view has exactly `w × h` entries and preserves
the prior sample values at all retained indices. -/
theorem c4_resize_shrink (s : Surface) (w' h' : ℕ) (hwf : WF s) :
    (s.back.length < w' → s.Resize w' h' = none)
    ∧ ((w' ≤ s.back.length ∧ ∀ r ∈ s.back.take w', h' ≤ r.length) →
        ∃ s2, s.Resize w' h' = some s2
          ∧ s2.Pts.length = w'
          ∧ (∀ r ∈ s2.Pts, r.length = h')
          ∧ (w' ≤ s.w → h' ≤ s.h → ∀ x, x < w' → ∀ y, y < h' →
              pAt s2.Pts x y = pAt s.Pts x y)) := by
  constructor
  · intro hgt
    unfold Surface.Resize
    rw [if_neg]
    rintro ⟨hle, -⟩
    omega
  · rintro ⟨h1, h2⟩
    refine ⟨{ s with w := w', h := h' }, ?_, ?_, ?_, ?_⟩
    · unfold Surface.Resize
      rw [if_pos ⟨h1, h2⟩]
    · exact Pts_length { s with w := w', h := h' } h1
    · exact Pts_row_length { s with w := w', h := h' } h2
    · intro hw' hh' x hx y hy
      have hxb : x < s.back.length := by omega
      have hrow2 : h' ≤ (s.back.getD x []).length := by
        have hxt : x < (s.back.take w').length := by
          rw [List.length_take]
          omega
        have hmem : (s.back.take w')[x] ∈ s.back.take w' := List.getElem_mem hxt
        have hb := h2 _ hmem
        rw [List.getElem_take] at hb
        rwa [List.getD_eq_getElem _ _ hxb]
      have hrow1 : s.h ≤ (s.back.getD x []).length := by
        have hmem : s.back[x] ∈ s.back := List.getElem_mem hxb
        have hb := hwf.2 _ hmem
        rwa [List.getD_eq_getElem _ _ hxb]
      rw [pAt_Pts { s with w := w', h := h' } x y hx hxb hy hrow2,
        pAt_Pts s x y (by omega) hxb (by omega) hrow1]

theorem c4_resize_shrink_witness :
    WF sC4
    ∧ ((sC4.back.length < 2 → sC4.Resize 2 2 = none)
       ∧ ((2 ≤ sC4.back.length ∧ ∀ r ∈ sC4.back.take 2, 2 ≤ r.length) →
           ∃ s2, sC4.Resize 2 2 = some s2
             ∧ s2.Pts.length = 2
             ∧ (∀ r ∈ s2.Pts, r.length = 2)
             ∧ (2 ≤ sC4.w → 2 ≤ sC4.h → ∀ x, x < 2 → ∀ y, y < 2 →
                 pAt s2.Pts x y = pAt sC4.Pts x y))) :=
  ⟨by decide, c4_resize_shrink sC4 2 2 (by decide)⟩

/-- C2: for a well-formed grid with sx, sy ≥ 2, a successful Update
produces a position buffer of 12·(sx−1)·(sy−1) floats (4 vertices of 3
floats per quad, i.e. 4·(sx−1)·(sy−1) vertices), 4·(sx−1)·(sy−1)
normal vectors, and the face buffer is exactly the concatenation, quad
by quad, of the two triangles (v0,v1,v2),(v1,v3,v2) of a 16-bit vertex
counter that advances by 4 per quad. -/
theorem c2_buffer_counts (s : Surface) (m : Model) (xo yo : ℤ) (s' : Surface) (m' : Model)
    (hwf : WF s) (hsx : 2 ≤ s.w) (hsy : 2 ≤ s.h)
    (hup : s.Update m xo yo = some (s', m')) :
    m'.vb.length = 12 * ((s.w - 1) * (s.h - 1))
    ∧ m'.nb.length = 4 * ((s.w - 1) * (s.h - 1))
    ∧ m'.fb = (List.range ((s.w - 1) * (s.h - 1))).flatMap
        (fun k => [(4 * k) % 65536, (4 * k + 1) % 65536, (4 * k + 2) % 65536,
                   (4 * k + 1) % 65536, (4 * k + 3) % 65536, (4 * k + 2) % 65536]) := by
  obtain ⟨hm, -⟩ := Update_inv s m xo yo s' m' hup
  subst hm
  have hsx' : s.Pts.length = s.w := Pts_length s hwf.1
  have hsy' : (s.Pts.headD []).length = s.h := Pts_head_length s hwf (by omega)
  rw [buildOut_eq]
  refine ⟨?_, ?_, ?_⟩
  · show ((quadList s.Pts.length (s.Pts.headD []).length).flatMap
      (fun q => quadVB s.Pts s.scale q.1 q.2)).length = _
    rw [flatMap_length_const _ 12 _ (fun q _ => by simp [quadVB]), quadList_length,
      hsx', hsy']
  · show ((quadList s.Pts.length (s.Pts.headD []).length).flatMap
      (fun q => quadNB s.Pts s.Pts.length (s.Pts.headD []).length s.scale q.1 q.2)).length
      = _
    rw [flatMap_length_const _ 4 _ (fun q _ => by simp [quadNB]), quadList_length,
      hsx', hsy']
  · show ((List.range ((s.Pts.length - 1) * ((s.Pts.headD []).length - 1))).flatMap
      (fun k => quadFB (4 * k))) = _
    rw [hsx', hsy']
    rfl

theorem c2_buffer_counts_witness :
    (WF sC2 ∧ 2 ≤ sC2.w ∧ 2 ≤ sC2.h ∧ sC2.Update mEmpty 0 0 = some (pC2.1, pC2.2))
    ∧ (pC2.2.vb.length = 12 * ((sC2.w - 1) * (sC2.h - 1))
       ∧ pC2.2.nb.length = 4 * ((sC2.w - 1) * (sC2.h - 1))
       ∧ pC2.2.fb = (List.range ((sC2.w - 1) * (sC2.h - 1))).flatMap
           (fun k => [(4 * k) % 65536, (4 * k + 1) % 65536, (4 * k + 2) % 65536,
                      (4 * k + 1) % 65536, (4 * k + 3) % 65536, (4 * k + 2) % 65536])) :=
  ⟨⟨by decide, by decide, by decide, rfl⟩,
   c2_buffer_counts sC2 mEmpty 0 0 pC2.1 pC2.2 (by decide) (by decide) (by decide) rfl⟩

/-- C1 evaluation at the failing input: a 2 × 16386 grid has 16385
quads, hence 4·16385 = 65540 vertices — more than the 65536 the 16-bit
index range can address — yet neither construction nor Update fails:
Update succeeds, and the `uint16` counter wraps silently, so quad
number 16384 receives the same first index (0) as quad number 0, its
indices aliasing the first quad's vertices instead of its own. -/
theorem c1_counter_wraps_silently :
    ∃ p : Surface × Model,
      (newSurface 2 16386 1 1 1).Update mEmpty 0 0 = some p
      ∧ p.2.vb.length = 3 * 65540
      ∧ 65536 < 65540
      ∧ p.2.fb.length = 6 * 16385
      ∧ p.2.fb.getD (6 * 16384 + 0) 1 = 0
      ∧ p.2.fb.getD (6 * 0 + 0) 1 = 0 := by
  have hwf := WF_newSurface 2 16386 1 1 1
  have hsx : (newSurface 2 16386 1 1 1).Pts.length = 2 := by
    rw [Pts_newSurface, List.length_replicate]
  have hsy : ((newSurface 2 16386 1 1 1).Pts.headD []).length = 16386 := by
    rw [Pts_newSurface, headD_replicate (by norm_num), List.length_replicate]
  have h1 : ¬(newSurface 2 16386 1 1 1).Pts.length = 0 := by omega
  have h2 : ¬((newSurface 2 16386 1 1 1).spread = 0
      ∧ 2 ≤ (newSurface 2 16386 1 1 1).Pts.length
      ∧ 2 ≤ ((newSurface 2 16386 1 1 1).Pts.headD []).length) := by
    rintro ⟨hsp, -⟩
    exact absurd hsp (by decide)
  have hc6 : ∀ k, (quadFB (4 * k)).length = 6 := fun k => by simp [quadFB]
  refine ⟨_, Update_eq_some _ mEmpty 0 0 h1 h2, ?_, by norm_num, ?_, ?_, ?_⟩
  · rw [buildOut_eq]
    dsimp only
    rw [flatMap_length_const _ 12 _ (fun q _ => by simp [quadVB]), quadList_length,
      hsx, hsy]
  · rw [buildOut_eq]
    dsimp only
    rw [flatMap_range_length _ 6 hc6, hsx, hsy]
  · rw [buildOut_eq]
    dsimp only
    rw [hsx, hsy, show (2 - 1) * (16386 - 1) = 16385 from by norm_num,
      flatMap_range_getD _ 6 hc6 16385 16384 0 (by norm_num) (by norm_num) 1]
    norm_num [quadFB]
  · rw [buildOut_eq]
    dsimp only
    rw [hsx, hsy, show (2 - 1) * (16386 - 1) = 16385 from by norm_num,
      flatMap_range_getD _ 6 hc6 16385 0 0 (by norm_num) (by norm_num) 1]
    norm_num [quadFB]

/-- C8: texture tiling is periodic in the patch offset with period
`spread`: for nonnegative offsets and spread ≥ 1, Update at offset
(xo + spread, yo) — and symmetrically at (xo, yo + spread) — returns
exactly the same result (in particular an identical texture-coordinate
buffer) as at (xo, yo), because `baseX` and `baseY` use the offsets
only through `(x+xo) mod spread` and `(y+yo) mod spread`. -/
theorem c8_offset_periodic (s : Surface) (m : Model) (xo yo : ℤ)
    (hsp : 1 ≤ s.spread) (hxo : 0 ≤ xo) (hyo : 0 ≤ yo) :
    s.Update m (xo + s.spread) yo = s.Update m xo yo
    ∧ s.Update m xo (yo + s.spread) = s.Update m xo yo := by
  have hx : ∀ x : ℕ, Int.tmod ((x : ℤ) + (xo + s.spread)) s.spread
      = Int.tmod ((x : ℤ) + xo) s.spread := by
    intro x
    rw [show (x : ℤ) + (xo + s.spread) = ((x : ℤ) + xo) + s.spread from by ring]
    exact tmod_add_right (add_nonneg (Int.natCast_nonneg x) hxo) hsp
  have hy : ∀ y : ℕ, Int.tmod ((y : ℤ) + (yo + s.spread)) s.spread
      = Int.tmod ((y : ℤ) + yo) s.spread := by
    intro y
    rw [show (y : ℤ) + (yo + s.spread) = ((y : ℤ) + yo) + s.spread from by ring]
    exact tmod_add_right (add_nonneg (Int.natCast_nonneg y) hyo) hsp
  have hqx : ∀ x y : ℕ, quadTB s.Pts s.spread s.tRat (xo + s.spread) yo x y
      = quadTB s.Pts s.spread s.tRat xo yo x y := by
    intro x y
    simp only [quadTB, hx x]
  have hqy : ∀ x y : ℕ, quadTB s.Pts s.spread s.tRat xo (yo + s.spread) x y
      = quadTB s.Pts s.spread s.tRat xo yo x y := by
    intro x y
    simp only [quadTB, hy y]
  constructor
  · have hstep : buildStep s.Pts s.Pts.length (s.Pts.headD []).length s.spread s.tRat
        s.scale (xo + s.spread) yo
        = buildStep s.Pts s.Pts.length (s.Pts.headD []).length s.spread s.tRat
          s.scale xo yo := by
      funext acc q
      simp only [buildStep, hqx]
    have hbuild : buildOut s.Pts s.spread s.tRat s.scale (xo + s.spread) yo
        = buildOut s.Pts s.spread s.tRat s.scale xo yo := by
      unfold buildOut
      rw [hstep]
    unfold Surface.Update
    rw [hbuild]
  · have hstep : buildStep s.Pts s.Pts.length (s.Pts.headD []).length s.spread s.tRat
        s.scale xo (yo + s.spread)
        = buildStep s.Pts s.Pts.length (s.Pts.headD []).length s.spread s.tRat
          s.scale xo yo := by
      funext acc q
      simp only [buildStep, hqy]
    have hbuild : buildOut s.Pts s.spread s.tRat s.scale xo (yo + s.spread)
        = buildOut s.Pts s.spread s.tRat s.scale xo yo := by
      unfold buildOut
      rw [hstep]
    unfold Surface.Update
    rw [hbuild]

theorem c8_offset_periodic_witness :
    ((1 : ℤ) ≤ sC8.spread ∧ (0 : ℤ) ≤ 0)
    ∧ (sC8.Update mC8 (0 + sC8.spread) 0 = sC8.Update mC8 0 0
       ∧ sC8.Update mC8 0 (0 + sC8.spread) = sC8.Update mC8 0 0) :=
  ⟨⟨by decide, by decide⟩,
   c8_offset_periodic sC8 mC8 0 0 (by decide) (by decide) (by decide)⟩

/-- C5 amended: with nonnegative patch offsets, spread ≥ 1, and an
atlas ratio large enough that the tile width is at least the seam
epsilon (0.001·spread ≤ atlasRatio, and 0.002 ≤ atlasRatio), every u
and every v written to the texture buffer by a successful Update lies
in the closed interval [0.001, atlasRatio − 0.001]; in particular none
is exactly 0 or exactly atlasRatio. -/
theorem c5_uv_bounds (s : Surface) (m : Model) (xo yo : ℤ) (s' : Surface) (m' : Model)
    (hsp : 1 ≤ s.spread) (hxo : 0 ≤ xo) (hyo : 0 ≤ yo)
    (hbs : border * ((s.spread : ℤ) : ℚ) ≤ s.tRat) (h2 : 2 * border ≤ s.tRat)
    (hup : s.Update m xo yo = some (s', m')) :
    ∀ c ∈ uvEntries m'.tb, border ≤ c ∧ c ≤ s.tRat - border := by
  obtain ⟨hm, -⟩ := Update_inv s m xo yo s' m' hup
  subst hm
  rw [buildOut_eq]
  dsimp only
  rw [uvEntries_flatMap (fun q : ℕ × ℕ => quadTB s.Pts s.spread s.tRat xo yo q.1 q.2)
    (fun q : ℕ × ℕ => quadTB_length_mod s.Pts s.spread s.tRat xo yo q.1 q.2)]
  intro c hc
  obtain ⟨q, hq, hcq⟩ := List.mem_flatMap.mp hc
  rw [uvEntries_quadTB] at hcq
  have hb : (0 : ℚ) < border := by norm_num [border]
  have hsq : (0 : ℚ) < ((s.spread : ℤ) : ℚ) := by exact_mod_cast hsp
  have hw : border ≤ s.tRat / ((s.spread : ℤ) : ℚ) := (le_div_iff hsq).mpr (by linarith)
  have hmx := tmod_bounds (add_nonneg (Int.natCast_nonneg q.1) hxo) hsp
  have hmy := tmod_bounds (add_nonneg (Int.natCast_nonneg q.2) hyo) hsp
  have hUlow : border ≤ cLow (baseU s.spread s.tRat xo q.1)
      ∧ cLow (baseU s.spread s.tRat xo q.1) ≤ s.tRat - border := by
    apply cLow_bounds hw h2
    rw [baseU_eq]
    exact scaled_cases_low hsp hbs hmx.1 (by omega)
  have hUhigh : border ≤ cHigh s.tRat
        (baseU s.spread s.tRat xo q.1 + s.tRat / ((s.spread : ℤ) : ℚ))
      ∧ cHigh s.tRat (baseU s.spread s.tRat xo q.1 + s.tRat / ((s.spread : ℤ) : ℚ))
        ≤ s.tRat - border := by
    apply cHigh_bounds hw h2
    rw [show baseU s.spread s.tRat xo q.1 + s.tRat / ((s.spread : ℤ) : ℚ)
        = ((Int.tmod ((q.1 : ℤ) + xo) s.spread + 1 : ℤ) : ℚ)
          * (s.tRat / ((s.spread : ℤ) : ℚ)) from by
      rw [baseU_eq]
      push_cast
      ring]
    exact scaled_cases_high hsp hbs (by omega) (by omega)
  have hVlow : border ≤ cLow (baseV s.spread s.tRat yo q.2)
      ∧ cLow (baseV s.spread s.tRat yo q.2) ≤ s.tRat - border := by
    apply cLow_bounds hw h2
    rw [baseV_eq _ _ _ _ (ne_of_gt hsq)]
    exact scaled_cases_low hsp hbs (by omega) (by omega)
  have hVhigh : border ≤ cHigh s.tRat
        (baseV s.spread s.tRat yo q.2 + s.tRat / ((s.spread : ℤ) : ℚ))
      ∧ cHigh s.tRat (baseV s.spread s.tRat yo q.2 + s.tRat / ((s.spread : ℤ) : ℚ))
        ≤ s.tRat - border := by
    apply cHigh_bounds hw h2
    rw [show baseV s.spread s.tRat yo q.2 + s.tRat / ((s.spread : ℤ) : ℚ)
        = ((s.spread - Int.tmod ((q.2 : ℤ) + yo) s.spread : ℤ) : ℚ)
          * (s.tRat / ((s.spread : ℤ) : ℚ)) from by
      rw [baseV_eq _ _ _ _ (ne_of_gt hsq)]
      push_cast
      ring]
    exact scaled_cases_high hsp hbs (by omega) (by omega)
  simp only [List.mem_cons, List.not_mem_nil, or_false] at hcq
  rcases hcq with rfl | rfl | rfl | rfl | rfl | rfl | rfl | rfl
  exacts [hUlow, hVhigh, hUhigh, hVhigh, hUlow, hVlow, hUhigh, hVlow]

theorem c5_uv_bounds_witness :
    ((1 : ℤ) ≤ sC5.spread ∧ (0 : ℤ) ≤ 0
      ∧ border * ((sC5.spread : ℤ) : ℚ) ≤ sC5.tRat ∧ 2 * border ≤ sC5.tRat
      ∧ sC5.Update mEmpty 0 0 = some (pC5.1, pC5.2))
    ∧ (∀ c ∈ uvEntries pC5.2.tb, border ≤ c ∧ c ≤ sC5.tRat - border) :=
  ⟨⟨by decide, by decide, by norm_num [border, sC5, newSurface],
    by norm_num [border, sC5, newSurface], rfl⟩,
   c5_uv_bounds sC5 mEmpty 0 0 pC5.1 pC5.2 (by decide) (by decide) (by decide)
     (by norm_num [border, sC5, newSurface]) (by norm_num [border, sC5, newSurface]) rfl⟩

/-- C5 counterexample: the claim quantifies over every integer patch
offset, but with offset (0, −1) Go's truncated `%` yields the negative
residue −1, `baseY` becomes 1, and the v coordinate of the quad's top
edge is 1.5 — outside [0.001, atlasRatio − 0.001] = [0.001, 0.999] and
untouched by the seam correction, which only fires on values exactly 0
or exactly atlasRatio.  Every value involved is exactly representable
in float32, so the rational model agrees with the Go float arithmetic
on this input. -/
theorem c5_negative_offset_escapes :
    ∃ p : Surface × Model,
      sC5.Update mEmpty 0 (-1) = some p
      ∧ (uvEntries p.2.tb).getD 1 0 = 3 / 2
      ∧ sC5.tRat = 1
      ∧ ¬((3 / 2 : ℚ) ≤ 1 - border) := by
  have h1 : ¬sC5.Pts.length = 0 := by decide
  have h2 : ¬(sC5.spread = 0 ∧ 2 ≤ sC5.Pts.length ∧ 2 ≤ (sC5.Pts.headD []).length) := by
    decide
  refine ⟨_, Update_eq_some sC5 mEmpty 0 (-1) h1 h2, ?_, by decide, by norm_num [border]⟩
  rw [buildOut_eq]
  dsimp only
  rw [show quadList sC5.Pts.length (sC5.Pts.headD []).length = [(0, 0)] from by decide,
    List.flatMap_cons, List.flatMap_nil, List.append_nil, uvEntries_quadTB]
  show cHigh sC5.tRat (baseV sC5.spread sC5.tRat (-1) 0 + sC5.tRat / ((sC5.spread : ℤ) : ℚ))
      = 3 / 2
  have htm : Int.tmod (((0 : ℕ) : ℤ) + (-1)) 2 = -1 := by decide
  show cHigh 1 (baseV 2 1 (-1) 0 + 1 / ((2 : ℤ) : ℚ)) = 3 / 2
  simp only [baseV, cHigh, htm]
  norm_num

/-- C7: the concrete scenario sx = sy = 3, spread = 1, atlasRatio = 1,
heightScale = 1, all heights 0, offset (0,0).  Update delivers exactly
4 quads: 16 vertices (48 position floats, all z = 0), 16 normal
vectors all equal to the raw (0,2,0) — whose normalization, the value
the Go code stores, is exactly (0,1,0) — 24 indices forming the four
quads' triangle pairs, and per quad the texture record `tbQuad7`: uv
corners corrected inward from (0,0)–(1,1) to (0.001,0.001)–(0.999,0.999)
with the origin-corner sample's textureIndex and blend on all four
vertices. -/
theorem c7_concrete_scenario :
    (sC7.Update mEmpty 0 0).map Prod.snd
      = some ⟨[0, 0, 0, 1, 0, 0, 0, 1, 0, 1, 1, 0,
               0, 1, 0, 1, 1, 0, 0, 2, 0, 1, 2, 0,
               1, 0, 0, 2, 0, 0, 1, 1, 0, 2, 1, 0,
               1, 1, 0, 2, 1, 0, 1, 2, 0, 2, 2, 0],
              List.replicate 16 ⟨0, 2, 0⟩,
              tbQuad7 ++ (tbQuad7 ++ (tbQuad7 ++ tbQuad7)),
              [0, 1, 2, 1, 3, 2, 4, 5, 6, 5, 7, 6,
               8, 9, 10, 9, 11, 10, 12, 13, 14, 13, 15, 14]⟩
    ∧ normalize3 ⟨0, 2, 0⟩ = ((0 : ℝ), (1 : ℝ), (0 : ℝ)) := by
  have hPts : sC7.Pts = List.replicate 3 (List.replicate 3 default) := by decide
  have hpAt : ∀ x y : ℕ, pAt sC7.Pts x y = default := by
    intro x y
    unfold pAt
    rw [hPts]
    rcases Nat.lt_or_ge x 3 with hx | hx
    · rw [getD_replicate _ _ hx]
      rcases Nat.lt_or_ge y 3 with hy | hy
      · rw [getD_replicate _ _ hy]
      · rw [List.getD_eq_default _ _ (by simpa using hy)]
    · have houter : (List.replicate 3 (List.replicate 3 (default : SurfacePoint))).getD x []
          = [] :=
        List.getD_eq_default _ _ (by simpa using hx)
      rw [houter]
      rfl
  have hAt0 : ∀ x y : ℕ, hAt sC7.Pts x y = 0 := by
    intro x y
    unfold hAt
    rw [hpAt]
    rfl
  constructor
  · have h1 : ¬sC7.Pts.length = 0 := by decide
    have h2 : ¬(sC7.spread = 0 ∧ 2 ≤ sC7.Pts.length ∧ 2 ≤ (sC7.Pts.headD []).length) := by
      decide
    rw [Update_eq_some sC7 mEmpty 0 0 h1 h2]
    show some (buildOut sC7.Pts sC7.spread sC7.tRat sC7.scale 0 0) = _
    refine congrArg some ?_
    rw [buildOut_eq, show sC7.Pts.length = 3 from by decide,
      show (sC7.Pts.headD []).length = 3 from by decide,
      show sC7.spread = 1 from by decide, show sC7.tRat = 1 from by decide,
      show sC7.scale = 1 from by decide,
      show quadList 3 3 = [(0, 0), (0, 1), (1, 0), (1, 1)] from by decide]
    have htm1 : ∀ n : ℕ, Int.tmod ((n : ℤ) + 0) 1 = 0 := by
      intro n
      rw [Int.tmod_eq_emod (by positivity) (by norm_num), Int.emod_one]
    simp only [List.flatMap_cons, List.flatMap_nil, List.append_nil, Model.mk.injEq]
    refine ⟨?_, ?_, ?_, ?_⟩
    · norm_num [quadVB, hAt0]
    · have hraw : ∀ x y : ℕ, rawNormal sC7.Pts 3 3 1 x y = ⟨0, 2, 0⟩ := by
        intro x y
        have hxs : xslopeAt sC7.Pts 3 x y = 0 := by
          simp only [xslopeAt, hAt0]
          split_ifs <;> norm_num
        have hys : yslopeAt sC7.Pts 3 x y = 0 := by
          simp only [yslopeAt, hAt0]
          split_ifs <;> norm_num
        unfold rawNormal
        rw [hxs, hys]
        norm_num
      simp [quadNB, hraw]
    · simp only [quadTB_eq]
      norm_num [cLow, cHigh, baseU, baseV, border, htm1, hpAt, tbQuad7,
        show ((default : SurfacePoint).tindex : ℚ) = 0 from rfl,
        show (default : SurfacePoint).blend = 0 from rfl]
    · decide
  · simp only [normalize3]
    push_cast
    norm_num
    rw [show (4 : ℝ) = 2 ^ 2 from by norm_num, Real.sqrt_sq (by norm_num)]
    norm_num
